import Mathlib

/-!
Verification development for the PhilTreeCrawler graph-growth core.

The definitions below are a shallow embedding of the source:

* src/lib/supabase/index.ts : concept, edge, rate-limit and nearest-neighbor
  query functions (createConcept, createEdge, findNearestConcepts,
  checkRateLimit, logGeneration);
* supabase/schema.sql : the uniqueness constraints of the concepts and edges
  tables, and the match_concepts similarity RPC;
* src/lib/openai/index.ts : generateConceptEmbedding;
* the branch-batch validation gate of the branch resolution engine, which is
  not present in the repository (its API routes are placeholders) and is
  therefore modelled from the specification.

Database tables are modelled as Lean lists, uuid generation as a counter,
timestamps as integers (milliseconds), and pgvector embeddings as lists of
rationals.  A fallible store query is an Except value, so that the failure
branches of the source are first-class.
-/

namespace PhilCrawl

/-! ## Preliminaries: a stable insertion sort by key, modelling SQL ORDER BY -/

/-- Insert an element into a list assumed sorted by ascending `key`. -/
def insertByKey {α β : Type} [LinearOrder β] (key : α → β) (a : α) : List α → List α
  | [] => [a]
  | b :: bs => if key a ≤ key b then a :: b :: bs else b :: insertByKey key a bs

/-- Sort a list by ascending `key`; models the ORDER BY clauses of the
SQL queries in the source. -/
def sortByKey {α β : Type} [LinearOrder β] (key : α → β) : List α → List α
  | [] => []
  | a :: as => insertByKey key a (sortByKey key as)

theorem insertByKey_perm {α β : Type} [LinearOrder β] (key : α → β) (a : α) :
    ∀ l : List α, (insertByKey key a l).Perm (a :: l)
  | [] => List.Perm.refl _
  | b :: bs => by
    by_cases h : key a ≤ key b
    · simp [insertByKey, h]
    · simpa [insertByKey, h] using
        ((insertByKey_perm key a bs).cons b).trans (List.Perm.swap a b bs)

theorem sortByKey_perm {α β : Type} [LinearOrder β] (key : α → β) :
    ∀ l : List α, (sortByKey key l).Perm l
  | [] => List.Perm.refl _
  | a :: as =>
    (insertByKey_perm key a (sortByKey key as)).trans ((sortByKey_perm key as).cons a)

theorem sortByKey_length {α β : Type} [LinearOrder β] (key : α → β) (l : List α) :
    (sortByKey key l).length = l.length :=
  (sortByKey_perm key l).length_eq

theorem mem_insertByKey {α β : Type} [LinearOrder β] {key : α → β} {a x : α}
    {l : List α} (hx : x ∈ insertByKey key a l) : x = a ∨ x ∈ l := by
  have := (insertByKey_perm key a l).mem_iff.mp hx
  simpa using this

theorem insertByKey_sorted {α β : Type} [LinearOrder β] (key : α → β) (a : α) :
    ∀ l : List α, l.Pairwise (fun x y => key x ≤ key y) →
      (insertByKey key a l).Pairwise (fun x y => key x ≤ key y)
  | [], _ => List.Pairwise.cons (by simp) List.Pairwise.nil
  | b :: bs, h => by
    rcases List.pairwise_cons.mp h with ⟨hb, hbs⟩
    by_cases hab : key a ≤ key b
    · rw [insertByKey, if_pos hab]
      refine List.pairwise_cons.mpr ⟨?_, h⟩
      intro x hx
      rcases List.mem_cons.mp hx with rfl | hx
      · exact hab
      · exact le_trans hab (hb x hx)
    · rw [insertByKey, if_neg hab]
      refine List.pairwise_cons.mpr ⟨?_, insertByKey_sorted key a bs hbs⟩
      intro x hx
      rcases mem_insertByKey hx with rfl | hx
      · exact le_of_lt (lt_of_not_le hab)
      · exact hb x hx

theorem sortByKey_sorted {α β : Type} [LinearOrder β] (key : α → β) :
    ∀ l : List α, (sortByKey key l).Pairwise (fun x y => key x ≤ key y)
  | [] => List.Pairwise.nil
  | a :: as => insertByKey_sorted key a (sortByKey key as) (sortByKey_sorted key as)

/-! ## Data model (supabase/schema.sql) -/

/-- Branch types; the edges table constrains branch_type to these four values
and the generation prompt requests one branch of each. -/
inductive BranchType
  | constructive
  | critique
  | author
  | wildcard
deriving DecidableEq, Repr

/-- A row of the concepts table.  Embeddings are lists of rationals standing
for the pgvector float vectors; a NULL embedding is `none`. -/
structure Concept where
  id : Nat
  name : String
  slug : String
  description : String
  recommended_reading : List String
  embedding : Option (List ℚ)
  created_at : Int
deriving DecidableEq, Repr

/-- A row of the edges table. -/
structure Edge where
  id : Nat
  source_id : Nat
  target_id : Nat
  branch_type : BranchType
  description : String
  created_at : Int
deriving DecidableEq, Repr

/-- A row of the user_generation_log table. -/
structure LogRow where
  user_id : Nat
  generated_at : Int
deriving DecidableEq, Repr

/-- Failure of an underlying store query (network or database error). -/
inductive DbFailure
  | unavailable
deriving DecidableEq, Repr

/-! ## Nearest-neighbor resolver
(findNearestConcepts in src/lib/supabase/index.ts and the match_concepts
RPC in supabase/schema.sql) -/

/-- Dot product of two embedding vectors. -/
def dot (a b : List ℚ) : ℚ := (List.zipWith (· * ·) a b).sum

/-- Rational square root; exact on the perfect rational squares that arise
from the concrete vectors used in this development. -/
def ratSqrt (q : ℚ) : ℚ := (Nat.sqrt q.num.toNat : ℚ) / (Nat.sqrt q.den : ℚ)

/-- Cosine distance, the pgvector operator used by match_concepts:
one minus the cosine of the angle between the two vectors. -/
def cosineDistance (a b : List ℚ) : ℚ :=
  1 - dot a b / (ratSqrt (dot a a) * ratSqrt (dot b b))

/-- Distance of the stored embedding of a concept to the query embedding,
the sort key of the match_concepts RPC. -/
def conceptDistance (queryEmbedding : List ℚ) (c : Concept) : ℚ :=
  cosineDistance (c.embedding.getD []) queryEmbedding

/-- Concepts admitted by the WHERE clause of match_concepts: a non-NULL
embedding whose similarity to the query exceeds the threshold. -/
def matchQualifies (queryEmbedding : List ℚ) (matchThreshold : ℚ) (c : Concept) : Bool :=
  c.embedding.isSome && decide (1 - conceptDistance queryEmbedding c > matchThreshold)

/-- The match_concepts RPC of supabase/schema.sql: rows with a non-NULL
embedding and similarity above the threshold, ordered by ascending cosine
distance to the query, limited to matchCount rows. -/
def match_concepts (db : List Concept) (queryEmbedding : List ℚ)
    (matchThreshold : ℚ) (matchCount : Nat) : List Concept :=
  (sortByKey (conceptDistance queryEmbedding)
    (db.filter (matchQualifies queryEmbedding matchThreshold))).take matchCount

/-- Which of the two store queries inside findNearestConcepts fail: the
match_concepts RPC, and the direct fallback query it degrades to. -/
structure StoreOutcome where
  rpcFails : Bool
  fallbackFails : Bool
deriving DecidableEq, Repr

/-- The findNearestConcepts function of src/lib/supabase/index.ts.  On RPC
success: match_concepts with threshold 0.5 and count limit + |excludeIds|,
then drop excluded ids and slice to limit.  On RPC failure: fall back to a
direct query for concepts with a non-NULL embedding limited to limit * 2,
with the same exclusion and slicing; if that also fails, return []. -/
def findNearestConcepts (db : List Concept) (outcome : StoreOutcome)
    (embedding : List ℚ) (limit : Nat) (excludeIds : List Nat) : List Concept :=
  if outcome.rpcFails then
    if outcome.fallbackFails then []
    else
      (((db.filter (fun c => c.embedding.isSome)).take (limit * 2)).filter
        (fun c => !(excludeIds.contains c.id))).take limit
  else
    ((match_concepts db embedding (1 / 2) (limit + excludeIds.length)).filter
      (fun c => !(excludeIds.contains c.id))).take limit

/-! ## Concept store (createConcept in src/lib/supabase/index.ts, concepts
table in supabase/schema.sql) -/

/-- One character of the slug derivation: keep letters and digits, lowercased.

Modelled from the spec: the slug derivation is performed by the third-party
slugify npm package, whose source is not part of this repository; the model
follows the words of the specification, which describes the derived slug as
the name lowercased with non-alphanumeric runs collapsed to a single
separator. -/
def slugSeparator : Char := '-'

/-- Collapse every maximal run of non-alphanumeric characters into a single
separator character.  The flag records whether the previous character
belonged to such a run.

Modelled from the spec: see slugSeparator. -/
def collapseRuns : Bool → List Char → List Char
  | _, [] => []
  | inRun, c :: cs =>
    if c.isAlphanum then c :: collapseRuns false cs
    else if inRun then collapseRuns true cs
    else slugSeparator :: collapseRuns true cs

/-- Slug derived from a concept name.

Modelled from the spec: lowercase the name and collapse non-alphanumeric
runs into a single separator; stands for slugify(name, lower and strict)
from the third-party slugify npm package, which is not in the repository. -/
def slugifyModel (name : String) : String :=
  String.mk (collapseRuns false (name.data.map Char.toLower))

/-- The concepts table: rows plus the next fresh id. -/
structure ConceptsDB where
  concepts : List Concept
  nextId : Nat
deriving DecidableEq, Repr

/-- An INSERT into the concepts table of supabase/schema.sql.  The table
declares UNIQUE on name and UNIQUE on slug, so the insert errors whenever
either column value is already present; the error case returns the state
unchanged. -/
def conceptsInsert (db : ConceptsDB) (name slug description : String)
    (recommendedReading : List String) (embedding : Option (List ℚ))
    (now : Int) : Option Concept × ConceptsDB :=
  if db.concepts.any (fun c => c.name == name || c.slug == slug) then
    (none, db)
  else
    let c : Concept :=
      ⟨db.nextId, name, slug, description, recommendedReading, embedding, now⟩
    (some c, ⟨db.concepts ++ [c], db.nextId + 1⟩)

/-- The createConcept function of src/lib/supabase/index.ts: derive the slug
from the name, insert, and on any insert error log it and return null (the
caller sees none and cannot tell which constraint fired). -/
def createConcept (db : ConceptsDB) (name description : String)
    (recommendedReading : List String) (embedding : List ℚ)
    (now : Int) : Option Concept × ConceptsDB :=
  conceptsInsert db name (slugifyModel name) description recommendedReading
    (some embedding) now

/-! ## Edge store (createEdge in src/lib/supabase/index.ts, edges table in
supabase/schema.sql) -/

/-- The edges table: rows plus the next fresh id. -/
structure EdgeDB where
  edges : List Edge
  nextId : Nat
deriving DecidableEq, Repr

/-- Whether an edge row matches the ordered pair (sourceId, targetId). -/
def edgeMatches (sourceId targetId : Nat) (e : Edge) : Bool :=
  e.source_id == sourceId && e.target_id == targetId

/-- Number of persisted edges for an ordered pair. -/
def pairCount (db : EdgeDB) (sourceId targetId : Nat) : Nat :=
  (db.edges.filter (edgeMatches sourceId targetId)).length

/-- The createEdge function of src/lib/supabase/index.ts.  The edges table
declares UNIQUE (source_id, target_id); an insert on an existing pair raises
error 23505, which createEdge handles by re-fetching and returning the
existing edge unchanged. -/
def createEdge (db : EdgeDB) (sourceId targetId : Nat) (branchType : BranchType)
    (description : String) (now : Int) : Option Edge × EdgeDB :=
  if db.edges.any (edgeMatches sourceId targetId) then
    match db.edges.find? (edgeMatches sourceId targetId) with
    | some e => (some e, db)
    | none => (none, db)
  else
    let e : Edge := ⟨db.nextId, sourceId, targetId, branchType, description, now⟩
    (some e, ⟨db.edges ++ [e], db.nextId + 1⟩)

/-! ## Rate limiter (checkRateLimit and logGeneration in
src/lib/supabase/index.ts) -/

/-- The hourly generation quota of the source. -/
def HOURLY_GENERATION_LIMIT : Int := 10

/-- Length of the rate-limit window in milliseconds (60 minutes). -/
def rateLimitWindowMs : Int := 60 * 60 * 1000

/-- Result shape of checkRateLimit. -/
structure RateLimitResult where
  allowed : Bool
  remaining : Int
  resetAt : Option Int
deriving DecidableEq, Repr

/-- The generation-log rows of a user whose timestamp lies within the
trailing window (the WHERE clause of the SELECT in checkRateLimit). -/
def windowEntries (db : List LogRow) (userId : Nat) (now : Int) : List LogRow :=
  db.filter (fun r => r.user_id == userId && decide (now - rateLimitWindowMs ≤ r.generated_at))

/-- The generation-log rows a given check reads: the window entries ordered
ascending by timestamp (the SELECT of checkRateLimit). -/
def rateLimitQuery (db : List LogRow) (userId : Nat) (now : Int) : List LogRow :=
  sortByKey (fun r => r.generated_at) (windowEntries db userId now)

/-- The body of checkRateLimit, over the outcome of the underlying count
query.  On a query error the limiter fails open: the action is allowed with
the full quota reported.  Otherwise remaining is max(0, limit - count),
allowed is count < limit, and when denied resetAt is the timestamp of the
first (oldest) returned row plus the window length. -/
def checkRateLimitWith (queryResult : Except DbFailure (List LogRow)) : RateLimitResult :=
  match queryResult with
  | .error _ => { allowed := true, remaining := HOURLY_GENERATION_LIMIT, resetAt := none }
  | .ok rows =>
    let count : Int := rows.length
    let remaining : Int := max 0 (HOURLY_GENERATION_LIMIT - count)
    let allowed : Bool := decide (count < HOURLY_GENERATION_LIMIT)
    let resetAt : Option Int :=
      if allowed then none
      else match rows.head? with
        | some oldest => some (oldest.generated_at + rateLimitWindowMs)
        | none => none
    { allowed := allowed, remaining := remaining, resetAt := resetAt }

/-- checkRateLimit on a healthy store. -/
def checkRateLimit (db : List LogRow) (userId : Nat) (now : Int) : RateLimitResult :=
  checkRateLimitWith (Except.ok (rateLimitQuery db userId now))

/-- The logGeneration function: append one generation-log row for the user
stamped with the current time. -/
def logGeneration (db : List LogRow) (userId : Nat) (now : Int) : List LogRow :=
  db ++ [⟨userId, now⟩]

/-! ## Branch batch validation and embedding text -/

/-- The four branch type labels of the generation contract. -/
def validBranchTypes : List String := ["constructive", "critique", "author", "wildcard"]

/-- A branch candidate as returned by the generation service: a type label,
a proposed target concept name and a relationship description. -/
structure BranchCandidate where
  type : String
  target_name : String
  description : String
deriving DecidableEq, Repr

/-- Modelled from the spec: the validation gate of the branch resolution
engine, which is absent from the repository (the concepts API routes are
placeholder modules), applied to the output of generateBranches.  The spec
requires exactly 4 candidates, the four type labels exactly the fixed set
with no repeats, and non-empty targetName and description. -/
def validateBranchBatch (bs : List BranchCandidate) : Bool :=
  bs.length == 4 &&
  validBranchTypes.all (fun t => (bs.map BranchCandidate.type).count t == 1) &&
  bs.all (fun b => !(b.target_name == "") && !(b.description == ""))

/-- Modelled from the spec: the engine accepts a generated batch whole when
it validates and rejects it whole otherwise, so it is never applied in part. -/
def acceptBranchBatch (bs : List BranchCandidate) : Option (List BranchCandidate) :=
  if validateBranchBatch bs then some bs else none

/-- The text generateConceptEmbedding builds for the embedding service
(src/lib/openai/index.ts): the name, a colon and a space, the description. -/
def conceptEmbeddingText (name description : String) : String :=
  name ++ ": " ++ description

/-- The generateConceptEmbedding function of src/lib/openai/index.ts, over
an abstract embedding service. -/
def generateConceptEmbedding (embedService : String → Option (List ℚ))
    (name description : String) : Option (List ℚ) :=
  embedService (conceptEmbeddingText name description)

/-! ## Concrete stores used for witnesses and counterexamples -/

/-- A store holding one concept named Kant with slug kant. -/
def exConceptsDBKant : ConceptsDB := ⟨[⟨0, "Kant", "kant", "d", [], none, 0⟩], 1⟩

/-- A store holding one concept named Kant under an unrelated slug (seeded
out of band), so the slug derived from Kant is absent. -/
def exConceptsDBNameDup : ConceptsDB := ⟨[⟨0, "Kant", "xyz", "d", [], none, 0⟩], 1⟩

/-- A store holding one concept whose slug collides with the slug derived
from Kant while its name differs. -/
def exConceptsDBSlugDup : ConceptsDB := ⟨[⟨0, "Immanuel Kant", "kant", "d", [], none, 0⟩], 1⟩

/-- A query embedding of norm 5. -/
def exQuery : List ℚ := [5, 0]

/-- Five concepts, all with embeddings of norm 5, whose similarities to
exQuery are 4/5, 3/5, 0, -3/5 and -4/5 respectively. -/
def exFiveConcepts : List Concept :=
  [⟨1, "c1", "c1", "d", [], some [4, 3], 0⟩,
   ⟨2, "c2", "c2", "d", [], some [3, 4], 0⟩,
   ⟨3, "c3", "c3", "d", [], some [0, 5], 0⟩,
   ⟨4, "c4", "c4", "d", [], some [-3, 4], 0⟩,
   ⟨5, "c5", "c5", "d", [], some [-4, 3], 0⟩]

/-! ## Theorems -/

/-- Claim C7: for every user, if the underlying count query of the rate limiter fails
(store unavailable), checkRateLimit fails open: it returns allowed = true
(with the full quota reported and no reset time) rather than denying
generation. -/
theorem checkRateLimit_fail_open (e : DbFailure) :
    checkRateLimitWith (Except.error e) =
      { allowed := true, remaining := 10, resetAt := none } := rfl

/-- Claim C9: the text sent to the embedding service by generateConceptEmbedding
is exactly the name, followed by the two characters colon-space, followed by
the description, so the resulting embedding depends on the name and the
description and on nothing else. -/
theorem generateConceptEmbedding_text (embedService : String → Option (List ℚ))
    (name description : String) :
    generateConceptEmbedding embedService name description
      = embedService (name ++ ": " ++ description) := rfl

/-- Claim C10: findNearestConcepts is total over store outcomes and returns a
plain list for every outcome; when both the similarity RPC and the fallback
query fail it returns the empty list, which coincides with the legitimate
empty answer every outcome produces on an empty store. -/
theorem findNearestConcepts_total_empty :
    (∀ (db : List Concept) (e : List ℚ) (limit : Nat) (x : List Nat),
        findNearestConcepts db ⟨true, true⟩ e limit x = []) ∧
    (∀ (o : StoreOutcome) (e : List ℚ) (limit : Nat) (x : List Nat),
        findNearestConcepts [] o e limit x = []) := by
  constructor
  · intro db e limit x
    rfl
  · intro o e limit x
    rcases o with ⟨rpc, fb⟩
    cases rpc <;> cases fb <;>
      simp [findNearestConcepts, match_concepts, sortByKey]

/-- Claim C1: from a state with at most one edge per ordered pair, a successful
createEdge call leaves exactly one persisted edge for its pair, keeps every
pair at most once, and a repeated call for the same pair with identical or
differing branch type and description is not an error: it returns the very
same edge (same id, original branch_type and description) and leaves the
store unchanged. -/
theorem createEdge_idempotent_by_pair
    (db : EdgeDB) (s t : Nat) (bt bt2 : BranchType) (d d2 : String)
    (now now2 : Int) (e : Edge) (db1 : EdgeDB)
    (huniq : ∀ s' t', pairCount db s' t' ≤ 1)
    (hcall : createEdge db s t bt d now = (some e, db1)) :
    pairCount db1 s t = 1 ∧
    (∀ s' t', pairCount db1 s' t' ≤ 1) ∧
    createEdge db1 s t bt2 d2 now2 = (some e, db1) := by
  by_cases h : db.edges.any (edgeMatches s t) = true
  · have hfindsome : (db.edges.find? (edgeMatches s t)).isSome = true := by
      rw [List.find?_isSome]
      simpa [List.any_eq_true] using h
    obtain ⟨e0, he0⟩ := Option.isSome_iff_exists.mp hfindsome
    have hval : createEdge db s t bt d now = (some e0, db) := by
      rw [createEdge, if_pos h, he0]
    have heq := hval.symm.trans hcall
    have he' : e0 = e := by simpa using congrArg Prod.fst heq
    have hdb : db = db1 := congrArg Prod.snd heq
    subst he'
    subst hdb
    have hone : pairCount db s t = 1 := by
      have hle := huniq s t
      have hpos : 0 < pairCount db s t := by
        rw [List.any_eq_true] at h
        obtain ⟨x, hx, hpx⟩ := h
        have hxm : x ∈ db.edges.filter (edgeMatches s t) := List.mem_filter.mpr ⟨hx, hpx⟩
        exact List.length_pos.mpr (List.ne_nil_of_mem hxm)
      omega
    refine ⟨hone, huniq, ?_⟩
    rw [createEdge, if_pos h, he0]
  · have hval : createEdge db s t bt d now
        = (some ⟨db.nextId, s, t, bt, d, now⟩,
            ⟨db.edges ++ [⟨db.nextId, s, t, bt, d, now⟩], db.nextId + 1⟩) := by
      rw [createEdge, if_neg h]
    have heq := hval.symm.trans hcall
    have he' : (⟨db.nextId, s, t, bt, d, now⟩ : Edge) = e := by
      simpa using congrArg Prod.fst heq
    have hdb : (⟨db.edges ++ [⟨db.nextId, s, t, bt, d, now⟩], db.nextId + 1⟩ : EdgeDB) = db1 :=
      congrArg Prod.snd heq
    have hnone : ∀ x ∈ db.edges, ¬ edgeMatches s t x = true := by
      rw [← List.any_eq_false]
      simpa using h
    have hfilternil : db.edges.filter (edgeMatches s t) = [] :=
      List.filter_eq_nil_iff.mpr hnone
    have hmatchself : edgeMatches s t (⟨db.nextId, s, t, bt, d, now⟩ : Edge) = true := by
      simp [edgeMatches]
    subst he'
    subst hdb
    constructor
    · simp [pairCount, List.filter_append, hfilternil, hmatchself]
    constructor
    · intro s' t'
      by_cases hm : edgeMatches s' t' (⟨db.nextId, s, t, bt, d, now⟩ : Edge) = true
      · have hst : s = s' ∧ t = t' := by
          simpa [edgeMatches] using hm
        obtain ⟨rfl, rfl⟩ := hst
        simp [pairCount, List.filter_append, hfilternil, hmatchself]
      · have hold := huniq s' t'
        simpa [pairCount, List.filter_append, hm] using hold
    · have hany1 : (db.edges ++ [(⟨db.nextId, s, t, bt, d, now⟩ : Edge)]).any (edgeMatches s t) = true := by
        simp [hmatchself]
      have hfind1 : (db.edges ++ [(⟨db.nextId, s, t, bt, d, now⟩ : Edge)]).find? (edgeMatches s t)
          = some ⟨db.nextId, s, t, bt, d, now⟩ := by
        rw [List.find?_append, List.find?_eq_none.mpr hnone]
        simp [hmatchself]
      rw [createEdge]
      rw [show (⟨db.edges ++ [⟨db.nextId, s, t, bt, d, now⟩], db.nextId + 1⟩ : EdgeDB).edges
            = db.edges ++ [⟨db.nextId, s, t, bt, d, now⟩] from rfl]
      rw [if_pos hany1, hfind1]

theorem checkRateLimit_remaining_eq (db : List LogRow) (userId : Nat) (now : Int) :
    (checkRateLimit db userId now).remaining
      = max 0 (10 - ((rateLimitQuery db userId now).length : Int)) := rfl

theorem checkRateLimit_allowed_eq (db : List LogRow) (userId : Nat) (now : Int) :
    (checkRateLimit db userId now).allowed
      = decide (((rateLimitQuery db userId now).length : Int) < 10) := rfl

theorem checkRateLimit_resetAt_eq (db : List LogRow) (userId : Nat) (now : Int) :
    (checkRateLimit db userId now).resetAt
      = if decide (((rateLimitQuery db userId now).length : Int) < 10) then none
        else match (rateLimitQuery db userId now).head? with
          | some oldest => some (oldest.generated_at + rateLimitWindowMs)
          | none => none := rfl

/-- Claim C2: for every user and state of the generation log, checkRateLimit
reports remaining = max(0, 10 - count) and allowed = (count < 10), where
count is the number of log entries of the user in the trailing 60-minute
window; when denied, resetAt is the timestamp of an oldest entry of the
window plus 60 minutes, and when allowed resetAt is null; and while
count < 10, one logGeneration lowers the remaining quota reported by a
subsequent check by exactly one. -/
theorem checkRateLimit_spec (db : List LogRow) (userId : Nat) (now : Int) :
    (checkRateLimit db userId now).remaining
        = max 0 (10 - ((windowEntries db userId now).length : Int)) ∧
    (checkRateLimit db userId now).allowed
        = decide (((windowEntries db userId now).length : Int) < 10) ∧
    ((checkRateLimit db userId now).allowed = false →
        ∃ r ∈ windowEntries db userId now,
          (checkRateLimit db userId now).resetAt
              = some (r.generated_at + rateLimitWindowMs) ∧
          ∀ r2 ∈ windowEntries db userId now, r.generated_at ≤ r2.generated_at) ∧
    ((checkRateLimit db userId now).allowed = true →
        (checkRateLimit db userId now).resetAt = none) ∧
    (((windowEntries db userId now).length : Int) < 10 →
        (checkRateLimit (logGeneration db userId now) userId now).remaining
          = (checkRateLimit db userId now).remaining - 1) := by
  have hlen : (rateLimitQuery db userId now).length = (windowEntries db userId now).length :=
    sortByKey_length _ _
  refine ⟨?_, ?_, ?_, ?_, ?_⟩
  · rw [checkRateLimit_remaining_eq, hlen]
  · rw [checkRateLimit_allowed_eq, hlen]
  · intro hfalse
    rw [checkRateLimit_allowed_eq] at hfalse
    have hge : ¬ ((rateLimitQuery db userId now).length : Int) < 10 := by
      simpa using hfalse
    have hne : rateLimitQuery db userId now ≠ [] := by
      intro hnil
      rw [hnil] at hge
      simp at hge
    obtain ⟨r0, rest, hQ⟩ := List.exists_cons_of_ne_nil hne
    have hperm : (rateLimitQuery db userId now).Perm (windowEntries db userId now) :=
      sortByKey_perm _ _
    refine ⟨r0, ?_, ?_, ?_⟩
    · exact hperm.mem_iff.mp (by rw [hQ]; exact List.mem_cons_self r0 rest)
    · rw [checkRateLimit_resetAt_eq, if_neg (by simpa using hge), hQ]
      simp
    · intro r2 hr2
      have hr2Q : r2 ∈ rateLimitQuery db userId now := hperm.mem_iff.mpr hr2
      rw [hQ] at hr2Q
      rcases List.mem_cons.mp hr2Q with rfl | hr2rest
      · exact le_refl _
      · have hsorted : (rateLimitQuery db userId now).Pairwise
            (fun x y : LogRow => x.generated_at ≤ y.generated_at) :=
          sortByKey_sorted _ _
        rw [hQ] at hsorted
        exact (List.pairwise_cons.mp hsorted).1 r2 hr2rest
  · intro htrue
    rw [checkRateLimit_allowed_eq] at htrue
    rw [checkRateLimit_resetAt_eq, if_pos htrue]
  · intro hlt
    have hw : windowEntries (logGeneration db userId now) userId now
        = windowEntries db userId now ++ [⟨userId, now⟩] := by
      have hpos : (0:Int) ≤ rateLimitWindowMs := by norm_num [rateLimitWindowMs]
      have hrow : (now - rateLimitWindowMs ≤ now) := by omega
      simp [windowEntries, logGeneration, List.filter_append, hrow, hpos]
    have hlen2a : (rateLimitQuery (logGeneration db userId now) userId now).length
        = (windowEntries (logGeneration db userId now) userId now).length :=
      sortByKey_length _ _
    have hlen2 : (rateLimitQuery (logGeneration db userId now) userId now).length
        = (windowEntries db userId now).length + 1 := by
      rw [hlen2a, hw, List.length_append]
      rfl
    rw [checkRateLimit_remaining_eq, checkRateLimit_remaining_eq, hlen, hlen2]
    rw [max_eq_right (by push_cast; omega), max_eq_right (by omega)]
    push_cast
    ring

/-- Witness for checkRateLimit_spec on the empty log: the check reports the
full quota of 10 remaining, and after one logGeneration a subsequent check
reports 9. -/
theorem checkRateLimit_spec_witness :
    (checkRateLimit [] 7 0).remaining = 10 ∧
    (checkRateLimit (logGeneration [] 7 0) 7 0).remaining = 9 := by
  obtain ⟨h1, -, -, -, h5⟩ := checkRateLimit_spec [] 7 0
  have hwin : windowEntries [] 7 0 = [] := rfl
  have hlt : ((windowEntries [] 7 0).length : Int) < 10 := by rw [hwin]; decide
  constructor
  · rw [h1, hwin]
    decide
  · rw [h5 hlt, h1, hwin]
    decide

/-- Witness for createEdge_idempotent_by_pair at a concrete store: the
second call for the pair (1, 2), with a different branch type, description
and timestamp, returns the edge the first call persisted and leaves the
store unchanged. -/
theorem createEdge_idempotent_by_pair_witness :
    createEdge ⟨[⟨0, 1, 2, BranchType.constructive, "d", 0⟩], 1⟩ 1 2
        BranchType.critique "x" 5
      = (some ⟨0, 1, 2, BranchType.constructive, "d", 0⟩,
          ⟨[⟨0, 1, 2, BranchType.constructive, "d", 0⟩], 1⟩) := by
  have h := createEdge_idempotent_by_pair ⟨[], 0⟩ 1 2
      BranchType.constructive BranchType.critique "d" "x" 0 5
      ⟨0, 1, 2, BranchType.constructive, "d", 0⟩
      ⟨[⟨0, 1, 2, BranchType.constructive, "d", 0⟩], 1⟩
      (by intro s' t'; simp [pairCount]) (by decide)
  exact h.2.2

theorem validateBranchBatch_iff (bs : List BranchCandidate) :
    validateBranchBatch bs = true ↔
      ((bs.map BranchCandidate.type).Perm validBranchTypes ∧
        ∀ b ∈ bs, b.target_name ≠ "" ∧ b.description ≠ "") := by
  constructor
  · intro h
    simp only [validateBranchBatch, Bool.and_eq_true, beq_iff_eq, List.all_eq_true,
      Bool.not_eq_true', beq_eq_false_iff_ne, ne_eq] at h
    obtain ⟨⟨hlen, hcount⟩, hfields⟩ := h
    refine ⟨?_, hfields⟩
    have hsub : validBranchTypes.Subperm (bs.map BranchCandidate.type) := by
      rw [List.subperm_ext_iff]
      intro x hx
      have hx1 : List.count x validBranchTypes = 1 := by
        fin_cases hx <;> decide
      rw [hx1, hcount x hx]
    refine (hsub.perm_of_length_le ?_).symm
    rw [List.length_map, hlen]
    decide
  · rintro ⟨hperm, hfields⟩
    have hlen : bs.length = 4 := by
      have hl := hperm.length_eq
      rw [List.length_map] at hl
      simpa [validBranchTypes] using hl
    have hcount : ∀ t ∈ validBranchTypes, (bs.map BranchCandidate.type).count t = 1 := by
      intro t ht
      rw [hperm.count_eq t]
      fin_cases ht <;> decide
    simp only [validateBranchBatch, Bool.and_eq_true, beq_iff_eq, List.all_eq_true,
      Bool.not_eq_true', beq_eq_false_iff_ne, ne_eq]
    exact ⟨⟨hlen, hcount⟩, hfields⟩

/-- Claim C3: the engine accepts a generated branch batch exactly when it holds
four candidates whose type labels are exactly the fixed set constructive,
critique, author, wildcard with no repeats and whose target name and
description are non-empty; any deviation rejects the whole batch, and a
batch is only ever accepted whole or rejected whole, never in part. -/
theorem acceptBranchBatch_spec (bs : List BranchCandidate) :
    (acceptBranchBatch bs = some bs ↔
      ((bs.map BranchCandidate.type).Perm validBranchTypes ∧
        ∀ b ∈ bs, b.target_name ≠ "" ∧ b.description ≠ "")) ∧
    (acceptBranchBatch bs = none ∨ acceptBranchBatch bs = some bs) := by
  constructor
  · rw [← validateBranchBatch_iff]
    unfold acceptBranchBatch
    by_cases h : validateBranchBatch bs = true
    · simp [h]
    · simp [h]
  · unfold acceptBranchBatch
    by_cases h : validateBranchBatch bs = true
    · right
      rw [if_pos h]
    · left
      rw [if_neg h]

/-- Claim C5, amended: the concepts table enforces uniqueness of both name and
slug: an insert whose name is already stored is rejected (the state is
unchanged), likewise for an already-stored slug, and inserts preserve the
no-duplicate invariants of both columns. -/
theorem conceptsInsert_unique_columns (db : ConceptsDB)
    (name slug description : String) (reading : List String)
    (embedding : Option (List ℚ)) (now : Int) :
    ((∃ c ∈ db.concepts, c.name = name) →
        conceptsInsert db name slug description reading embedding now = (none, db)) ∧
    ((∃ c ∈ db.concepts, c.slug = slug) →
        conceptsInsert db name slug description reading embedding now = (none, db)) ∧
    ((db.concepts.map Concept.name).Nodup → (db.concepts.map Concept.slug).Nodup →
      (((conceptsInsert db name slug description reading embedding now).2.concepts.map
          Concept.name).Nodup ∧
        ((conceptsInsert db name slug description reading embedding now).2.concepts.map
          Concept.slug).Nodup)) := by
  by_cases h : db.concepts.any (fun c => c.name == name || c.slug == slug) = true
  · have hval : conceptsInsert db name slug description reading embedding now = (none, db) := by
      rw [conceptsInsert, if_pos h]
    exact ⟨fun _ => hval, fun _ => hval, fun hn hs => by rw [hval]; exact ⟨hn, hs⟩⟩
  · have hforall : ∀ c ∈ db.concepts, ¬(c.name == name || c.slug == slug) = true := by
      rw [← List.any_eq_false]
      simpa using h
    refine ⟨?_, ?_, ?_⟩
    · rintro ⟨c, hc, hcname⟩
      exact absurd (by simp [hcname]) (hforall c hc)
    · rintro ⟨c, hc, hcslug⟩
      exact absurd (by simp [hcslug]) (hforall c hc)
    · intro hn hs
      have hval : conceptsInsert db name slug description reading embedding now
          = (some ⟨db.nextId, name, slug, description, reading, embedding, now⟩,
              ⟨db.concepts ++ [⟨db.nextId, name, slug, description, reading, embedding, now⟩],
                db.nextId + 1⟩) := by
        rw [conceptsInsert, if_neg h]
      have hnotname : name ∉ db.concepts.map Concept.name := by
        intro hmem
        obtain ⟨c, hc, hceq⟩ := List.mem_map.mp hmem
        exact hforall c hc (by simp [hceq])
      have hnotslug : slug ∉ db.concepts.map Concept.slug := by
        intro hmem
        obtain ⟨c, hc, hceq⟩ := List.mem_map.mp hmem
        exact hforall c hc (by simp [hceq])
      rw [hval]
      constructor
      · simpa [List.map_append, List.nodup_append, hnotname] using hn
      · simpa [List.map_append, List.nodup_append, hnotslug] using hs

/-- Witness for conceptsInsert_unique_columns: inserting a second concept
with the already-stored name Kant under a fresh slug is rejected and leaves
the store unchanged. -/
theorem conceptsInsert_unique_columns_witness :
    conceptsInsert exConceptsDBKant "Kant" "kant-2" "d2" [] none 1
      = (none, exConceptsDBKant) :=
  (conceptsInsert_unique_columns exConceptsDBKant "Kant" "kant-2" "d2" [] none 1).1
    ⟨⟨0, "Kant", "kant", "d", [], none, 0⟩, by simp [exConceptsDBKant], rfl⟩

/-- Counterexample to C5 as stated: identical names for distinct stored
concepts are not permitted.  The concepts table declares UNIQUE on name as
well as on slug, so an insert reusing the stored name Kant with a slug that
is stored nowhere is rejected. -/
theorem concepts_duplicate_name_rejected_cex :
    conceptsInsert exConceptsDBKant "Kant" "kant-b" "dB" [] none 2
        = (none, exConceptsDBKant) ∧
    exConceptsDBKant.concepts.all (fun c => !(c.slug == "kant-b")) = true := by
  decide

/-- Claim C6, amended: createConcept reports every failure as the bare null
result: it fails exactly when the name or the derived slug is already
stored, the state is then unchanged, and the returned value carries no
error code, so a caller cannot tell a duplicate-slug failure from any
other failure. -/
theorem createConcept_failure_indistinct (db : ConceptsDB)
    (name description : String) (reading : List String)
    (embedding : List ℚ) (now : Int) :
    ((createConcept db name description reading embedding now).1 = none ↔
      ∃ c ∈ db.concepts, c.name = name ∨ c.slug = slugifyModel name) ∧
    ((createConcept db name description reading embedding now).1 = none →
      (createConcept db name description reading embedding now).2 = db) := by
  by_cases h : db.concepts.any (fun c => c.name == name || c.slug == slugifyModel name) = true
  · have hval : createConcept db name description reading embedding now = (none, db) := by
      rw [createConcept, conceptsInsert, if_pos h]
    rw [hval]
    constructor
    · simp only [true_iff]
      rw [List.any_eq_true] at h
      obtain ⟨c, hc, hcp⟩ := h
      exact ⟨c, hc, by simpa using hcp⟩
    · intro
      rfl
  · have hval : createConcept db name description reading embedding now
        = (some ⟨db.nextId, name, slugifyModel name, description, reading, some embedding, now⟩,
            ⟨db.concepts ++
                [⟨db.nextId, name, slugifyModel name, description, reading, some embedding, now⟩],
              db.nextId + 1⟩) := by
      rw [createConcept, conceptsInsert, if_neg h]
    rw [hval]
    constructor
    · simp only [reduceCtorEq, false_iff, not_exists]
      intro c hc
      obtain ⟨hmem, hcor⟩ := hc
      have hall : ∀ x ∈ db.concepts, ¬(x.name == name || x.slug == slugifyModel name) = true := by
        rw [← List.any_eq_false]
        simpa using h
      exact hall c hmem (by rcases hcor with h1 | h1 <;> simp [h1])
    · intro hfalse
      exact absurd hfalse (by simp)

/-- Witness for createConcept_failure_indistinct: with the name Kant already
stored under an unrelated slug, createConcept for Kant returns null. -/
theorem createConcept_failure_indistinct_witness :
    (createConcept exConceptsDBNameDup "Kant" "d2" [] [] 0).1 = none :=
  (createConcept_failure_indistinct exConceptsDBNameDup "Kant" "d2" [] [] 0).1.mpr
    ⟨⟨0, "Kant", "xyz", "d", [], none, 0⟩, by simp [exConceptsDBNameDup], Or.inl rfl⟩

/-- Counterexample to C6 as stated: createConcept fails although the slug
derived from the given name is stored nowhere (a name collision), and the
result of that failure is identical to the result of a genuine slug
collision, so no distinguishable DuplicateSlug error exists and the failure
is not tied exactly to slug existence. -/
theorem createConcept_no_duplicate_slug_error_cex :
    (createConcept exConceptsDBNameDup "Kant" "d2" [] [] 0).1 = none ∧
    exConceptsDBNameDup.concepts.all (fun c => !(c.slug == slugifyModel "Kant")) = true ∧
    (createConcept exConceptsDBSlugDup "Kant" "d2" [] [] 0).1
      = (createConcept exConceptsDBNameDup "Kant" "d2" [] [] 0).1 := by
  decide

/-- Claim C8: the slug createConcept stores is derived deterministically from the
name alone, by lowercasing and collapsing non-alphanumeric runs into a
single separator; two successful calls with the same name, whatever the
stores, descriptions, embeddings or timestamps, derive the same slug. -/
theorem createConcept_slug_derivation
    (db1 db2 : ConceptsDB) (name d1 d2 : String) (r1 r2 : List String)
    (e1 e2 : List ℚ) (n1 n2 : Int) (c1 c2 : Concept) (s1 s2 : ConceptsDB)
    (h1 : createConcept db1 name d1 r1 e1 n1 = (some c1, s1))
    (h2 : createConcept db2 name d2 r2 e2 n2 = (some c2, s2)) :
    c1.slug = slugifyModel name ∧ c1.slug = c2.slug := by
  have hslug : ∀ (db : ConceptsDB) (d : String) (r : List String) (e : List ℚ)
      (n : Int) (c : Concept) (s : ConceptsDB),
      createConcept db name d r e n = (some c, s) → c.slug = slugifyModel name := by
    intro db d r e n c s hcall
    by_cases h : db.concepts.any (fun x => x.name == name || x.slug == slugifyModel name) = true
    · rw [createConcept, conceptsInsert, if_pos h] at hcall
      exact absurd (congrArg Prod.fst hcall) (by simp)
    · have hval : createConcept db name d r e n
          = (some ⟨db.nextId, name, slugifyModel name, d, r, some e, n⟩,
              ⟨db.concepts ++ [⟨db.nextId, name, slugifyModel name, d, r, some e, n⟩],
                db.nextId + 1⟩) := by
        rw [createConcept, conceptsInsert, if_neg h]
      have hc : c = ⟨db.nextId, name, slugifyModel name, d, r, some e, n⟩ := by
        have := congrArg Prod.fst (hval.symm.trans hcall)
        simpa using this.symm
      rw [hc]
  have hc1 := hslug db1 d1 r1 e1 n1 c1 s1 h1
  have hc2 := hslug db2 d2 r2 e2 n2 c2 s2 h2
  exact ⟨hc1, hc1.trans hc2.symm⟩

/-- Witness for createConcept_slug_derivation: two calls for the name
Free Will against different stores both store the slug free-will. -/
theorem createConcept_slug_derivation_witness :
    (⟨0, "Free Will", "free-will", "a", [], some [], 5⟩ : Concept).slug
        = slugifyModel "Free Will" ∧
    (⟨0, "Free Will", "free-will", "a", [], some [], 5⟩ : Concept).slug
        = (⟨1, "Free Will", "free-will", "b", [], some [], 7⟩ : Concept).slug :=
  createConcept_slug_derivation ⟨[], 0⟩ ⟨[], 1⟩ "Free Will" "a" "b" [] [] [] [] 5 7
    ⟨0, "Free Will", "free-will", "a", [], some [], 5⟩
    ⟨1, "Free Will", "free-will", "b", [], some [], 7⟩
    ⟨[⟨0, "Free Will", "free-will", "a", [], some [], 5⟩], 1⟩
    ⟨[⟨1, "Free Will", "free-will", "b", [], some [], 7⟩], 2⟩
    (by decide) (by decide)

theorem length_filter_contains_le (l : List Concept) (ids : List Nat)
    (h : (l.map Concept.id).Nodup) :
    (l.filter (fun c => ids.contains c.id)).length ≤ ids.length := by
  classical
  have hm : ((l.filter (fun c => ids.contains c.id)).map Concept.id).Nodup :=
    ((List.filter_sublist l).map Concept.id).nodup h
  have hsub : ∀ x ∈ (l.filter (fun c => ids.contains c.id)).map Concept.id, x ∈ ids := by
    intro x hx
    obtain ⟨c, hc, rfl⟩ := List.mem_map.mp hx
    have hcont := (List.mem_filter.mp hc).2
    simpa using hcont
  calc (l.filter (fun c => ids.contains c.id)).length
      = ((l.filter (fun c => ids.contains c.id)).map Concept.id).length := by
        rw [List.length_map]
    _ = ((l.filter (fun c => ids.contains c.id)).map Concept.id).toFinset.card :=
        (List.toFinset_card_of_nodup hm).symm
    _ ≤ ids.toFinset.card := Finset.card_le_card (by
        intro x hx
        exact List.mem_toFinset.mpr (hsub x (List.mem_toFinset.mp hx)))
    _ ≤ ids.length := List.toFinset_card_le ids

theorem take_filter_take {α : Type} (p : α → Bool) (l : List α) (limit extra : Nat)
    (hdrop : ((l.take (limit + extra)).filter (fun a => !(p a))).length ≤ extra) :
    ((l.take (limit + extra)).filter p).take limit = (l.filter p).take limit := by
  rcases le_or_lt l.length (limit + extra) with hle | hlt
  · rw [List.take_of_length_le hle]
  · have hlen : (l.take (limit + extra)).length = limit + extra := by
      rw [List.length_take]
      exact min_eq_left (le_of_lt hlt)
    have hsplit : l.filter p
        = (l.take (limit + extra)).filter p ++ (l.drop (limit + extra)).filter p := by
      rw [← List.filter_append, List.take_append_drop]
    have hcount := @List.length_eq_length_filter_add _ (l.take (limit + extra)) p
    have hge : limit ≤ ((l.take (limit + extra)).filter p).length := by omega
    rw [hsplit, List.take_append_eq_append_take]
    have hzero : limit - ((l.take (limit + extra)).filter p).length = 0 := by omega
    rw [hzero, List.take_zero, List.append_nil]

/-- Claim C4, amended: on the healthy path, over a store with pairwise-distinct
concept ids, findNearestConcepts returns at most limit concepts, none of
whose ids appear in excludeIds, each with a non-null embedding, ordered by
ascending cosine distance to the query; the result is exactly the first
limit elements, in ascending-distance order, of the non-excluded concepts
that qualify for the match_concepts RPC, i.e. whose similarity exceeds the
fixed match threshold 0.5 — so the limit most-similar such concepts are
returned when enough qualify, and fewer otherwise. -/
theorem findNearestConcepts_spec (db : List Concept) (q : List ℚ) (limit : Nat)
    (excludeIds : List Nat) (hids : (db.map Concept.id).Nodup) :
    (findNearestConcepts db ⟨false, false⟩ q limit excludeIds).length ≤ limit ∧
    (∀ c ∈ findNearestConcepts db ⟨false, false⟩ q limit excludeIds,
        c.id ∉ excludeIds) ∧
    (∀ c ∈ findNearestConcepts db ⟨false, false⟩ q limit excludeIds,
        c.embedding.isSome = true) ∧
    (findNearestConcepts db ⟨false, false⟩ q limit excludeIds).Pairwise
        (fun a b => conceptDistance q a ≤ conceptDistance q b) ∧
    findNearestConcepts db ⟨false, false⟩ q limit excludeIds
      = ((sortByKey (conceptDistance q) (db.filter (matchQualifies q (1 / 2)))).filter
          (fun c => !(excludeIds.contains c.id))).take limit := by
  have hQperm : (sortByKey (conceptDistance q) (db.filter (matchQualifies q (1 / 2)))).Perm
      (db.filter (matchQualifies q (1 / 2))) := sortByKey_perm _ _
  have hQids : ((db.filter (matchQualifies q (1 / 2))).map Concept.id).Nodup :=
    ((List.filter_sublist db).map Concept.id).nodup hids
  have hSids : ((sortByKey (conceptDistance q)
      (db.filter (matchQualifies q (1 / 2)))).map Concept.id).Nodup :=
    ((hQperm.map Concept.id).symm).nodup hQids
  have htakeids : (((sortByKey (conceptDistance q)
        (db.filter (matchQualifies q (1 / 2)))).take (limit + excludeIds.length)).map
      Concept.id).Nodup :=
    ((List.take_sublist _ _).map Concept.id).nodup hSids
  have hnotnot : (fun c : Concept => !(!(excludeIds.contains c.id)))
      = (fun c : Concept => excludeIds.contains c.id) := by
    funext c
    simp
  have hdrop : (((sortByKey (conceptDistance q)
        (db.filter (matchQualifies q (1 / 2)))).take (limit + excludeIds.length)).filter
      (fun c => !(!(excludeIds.contains c.id)))).length ≤ excludeIds.length := by
    rw [hnotnot]
    exact length_filter_contains_le _ _ htakeids
  have hres : findNearestConcepts db ⟨false, false⟩ q limit excludeIds
      = ((sortByKey (conceptDistance q) (db.filter (matchQualifies q (1 / 2)))).filter
          (fun c => !(excludeIds.contains c.id))).take limit := by
    have hunf : findNearestConcepts db ⟨false, false⟩ q limit excludeIds
        = (((sortByKey (conceptDistance q)
              (db.filter (matchQualifies q (1 / 2)))).take (limit + excludeIds.length)).filter
            (fun c => !(excludeIds.contains c.id))).take limit := rfl
    rw [hunf]
    exact take_filter_take _ _ limit excludeIds.length hdrop
  have hsubS : findNearestConcepts db ⟨false, false⟩ q limit excludeIds |>.Sublist
      (sortByKey (conceptDistance q) (db.filter (matchQualifies q (1 / 2)))) := by
    rw [hres]
    exact (List.take_sublist _ _).trans (List.filter_sublist _)
  refine ⟨?_, ?_, ?_, ?_, hres⟩
  · rw [hres, List.length_take]
    exact min_le_left _ _
  · intro c hc
    rw [hres] at hc
    have hcf := (List.take_sublist _ _).subset hc
    have hpc := (List.mem_filter.mp hcf).2
    simpa using hpc
  · intro c hc
    have hcS := hsubS.subset hc
    have hcQ := hQperm.mem_iff.mp hcS
    have hq := (List.mem_filter.mp hcQ).2
    exact (Bool.and_eq_true _ _ |>.mp hq).1
  · exact List.Pairwise.sublist hsubS (sortByKey_sorted _ _)

theorem ratSqrt25 : ratSqrt 25 = 5 := by
  have h1 : (25:ℚ).num.toNat = 25 := rfl
  have h2 : (25:ℚ).den = 1 := rfl
  have h3 : Nat.sqrt 25 = 5 := by
    have h : (25:ℕ) = 5 * 5 := by norm_num
    rw [h, Nat.sqrt_eq]
  simp [ratSqrt, h1, h2, h3]

/-- Counterexample to C4 as stated: a store of five concepts, all with
non-null embeddings and none excluded, queried with limit 3, for which
findNearestConcepts returns only 2 concepts instead of the 3 most similar:
the third-nearest concept has similarity 0 to the query, below the fixed
match threshold 0.5 of the RPC call, so it is filtered out. -/
theorem findNearestConcepts_threshold_cex :
    exFiveConcepts.all (fun c => c.embedding.isSome) = true ∧
    (findNearestConcepts exFiveConcepts ⟨false, false⟩ exQuery 3 []).length = 2 := by
  constructor
  · decide
  · norm_num [findNearestConcepts, match_concepts, matchQualifies, conceptDistance,
      cosineDistance, dot, exQuery, exFiveConcepts, ratSqrt25, sortByKey, insertByKey]

/-- Witness for findNearestConcepts_spec on the five-concept store: the ids
are pairwise distinct and a request with limit 3 returns at most 3
concepts. -/
theorem findNearestConcepts_spec_witness :
    (exFiveConcepts.map Concept.id).Nodup ∧
    (findNearestConcepts exFiveConcepts ⟨false, false⟩ exQuery 3 []).length ≤ 3 :=
  ⟨by decide, (findNearestConcepts_spec exFiveConcepts exQuery 3 [] (by decide)).1⟩

end PhilCrawl
